import Mathlib

/-!
# Istanbul backend: message senders and the sentry / snapshot API

A shallow embedding of `consensus/istanbul/backend/message_senders.go` and
`consensus/istanbul/backend/api.go`.

Conventions of the embedding.

* Identities (validator addresses, enode IDs, block hashes) are naturals; a
  payload is its list of byte values; a Go `error` is its message, `none`
  being the nil error.
* A Go slice that may be nil is an `Option (List _)`: `none` is the nil slice,
  `some []` a non-nil empty one.  A Go `map[enode.ID]bool` whose stored values
  are all `true` is the finite set of its keys, again under `Option` when the
  map variable may be nil.
* A `consensus.Peer` is an interface value and may be nil, so a slice of peers
  is a list of `Option Peer`.
* Calls on collaborators (proxy handler, enode table, broadcaster, event mux,
  peers) are recorded, in program order, in a trace of `Event`s.  A `go f(x)`
  statement is recorded at the point where it is executed.
* The results of the collaborators are fields of `Backend`; the gossip cache
  is threaded explicitly.
-/

namespace Istanbul

abbrev Address := Nat

abbrev NodeID := Nat

abbrev Hash := Nat

abbrev Payload := List Nat

abbrev Fingerprint := Nat

abbrev Err := String

/-- An `enode.Node`: `id` is `Node.ID()`, `addr` is
`crypto.PubkeyToAddress(*Node.Pubkey())`. -/
structure Node where
  id : NodeID
  addr : Address
deriving DecidableEq, Repr

/-- A connected `consensus.Peer`, seen through `peer.Node()`. -/
structure Peer where
  node : Node
deriving DecidableEq, Repr

/-- Calls made by the message senders on their collaborators. -/
inductive Event where
  /-- Records `sb.proxyHandler.SendForwardMsg(destAddresses, ethMsgCode, payload)`. -/
  | forward (destAddresses : Option (List Address)) (ethMsgCode : Nat) (payload : Payload)
  /-- Records `sb.valEnodeTable.GetNodeFromAddress(addr)`. -/
  | lookup (addr : Address)
  /-- Records `sb.broadcaster.FindPeers(targets, p2p.AnyPurpose)`. -/
  | findPeers (targets : Option (Finset NodeID))
  /-- Records `go peer.Send(ethMsgCode, payload)`; `peer = none` is the nil interface value. -/
  | send (peer : Option Peer) (ethMsgCode : Nat) (payload : Payload)
  /-- Records `go sb.istanbulEventMux.Post(istanbul.MessageEvent{Payload: payload})`. -/
  | post (payload : Payload)
deriving DecidableEq

/-- The collaborators of `Backend` that the message senders and the API read. -/
structure Backend where
  /-- Field `sb.config.Proxied`. -/
  proxied : Bool
  /-- Result of `sb.IsProxiedValidator()`. -/
  isProxiedValidator : Bool
  /-- Result of `sb.proxyHandler.SendForwardMsg`. -/
  sendForwardMsg : Option (List Address) → Nat → Payload → Option Err
  /-- Result of `sb.valEnodeTable.GetNodeFromAddress`: the node pointer and the error. -/
  getNodeFromAddress : Address → Option Node × Option Err
  /-- Result of `sb.broadcaster.FindPeers(targets, p2p.AnyPurpose)`: the values of the
  returned map, in the order in which a `range` over the map visits them. -/
  findPeers : Option (Finset NodeID) → List Peer
  /-- Digest under which the gossip cache files a payload. -/
  fingerprint : Payload → Fingerprint

/-- Modelled from the spec: the gossip deduplication cache (the fields behind
`markSelfGossipCache`, `checkPeerGossipCache` and `markPeerGossipCache`, which are
declared outside the two embedded files).  Spec §3: an entry is keyed by the payload
fingerprint for the self view and by (peer identity, payload fingerprint) for the
per-peer view; an entry is never reported absent once inserted until it is evicted,
and insertion is idempotent.  This is the cache within a window in which nothing is
evicted and nothing ages out; it serves the statements that are themselves conditioned on
no eviction.  The cache with the bounds of spec §4.2 is `BoundedGossipCache`. -/
structure GossipCache where
  selfView : List Fingerprint
  peerView : List (Address × Fingerprint)
deriving DecidableEq, Repr

/-- Modelled from the spec: `markSelf(fingerprint)`, the helper `sb.markSelfGossipCache`
declared outside the embedded files; idempotent insertion in the self view. -/
def markSelfGossipCache (sb : Backend) (c : GossipCache) (payload : Payload) : GossipCache :=
  if sb.fingerprint payload ∈ c.selfView then c
  else { c with selfView := sb.fingerprint payload :: c.selfView }

/-- Modelled from the spec: `hasPeerSeen(peerIdentity, fingerprint)`, the helper
`sb.checkPeerGossipCache` declared outside the embedded files. -/
def checkPeerGossipCache (sb : Backend) (c : GossipCache) (nodeAddr : Address)
    (payload : Payload) : Bool :=
  decide ((nodeAddr, sb.fingerprint payload) ∈ c.peerView)

/-- Modelled from the spec: `markPeer(peerIdentity, fingerprint)`, the helper
`sb.markPeerGossipCache` declared outside the embedded files; idempotent insertion in
the per-peer view. -/
def markPeerGossipCache (sb : Backend) (c : GossipCache) (nodeAddr : Address)
    (payload : Payload) : GossipCache :=
  if (nodeAddr, sb.fingerprint payload) ∈ c.peerView then c
  else { c with peerView := (nodeAddr, sb.fingerprint payload) :: c.peerView }

/-- The loop of `getPeersFromDestAddresses` over `destAddresses`: an address whose
lookup gives a non-nil node and a nil error adds that node's ID to `targets`. -/
def resolveTargets (sb : Backend) : List Address → Finset NodeID → Finset NodeID
  | [], targets => targets
  | addr :: rest, targets =>
    match sb.getNodeFromAddress addr with
    | (some valNode, none) => resolveTargets sb rest (insert valNode.id targets)
    | _ => resolveTargets sb rest targets

/-- The value of `targets` when `FindPeers` is called in `getPeersFromDestAddresses`:
nil for a nil `destAddresses`, otherwise the map built by the loop from an empty map. -/
def destTargets (sb : Backend) (destAddresses : Option (List Address)) :
    Option (Finset NodeID) :=
  match destAddresses with
  | none => none
  | some addrs => some (resolveTargets sb addrs ∅)

/-- Embedding of `Backend.getPeersFromDestAddresses`: the calls made and the peers returned. -/
def getPeersFromDestAddresses (sb : Backend) (destAddresses : Option (List Address)) :
    List Event × List Peer :=
  let lookups : List Event :=
    match destAddresses with
    | none => []
    | some addrs => addrs.map Event.lookup
  let targets := destTargets sb destAddresses
  (lookups ++ [Event.findPeers targets], sb.findPeers targets)

/-- Embedding of `Backend.sendMsg`: one `go peer.Send(ethMsgCode, payload)` per element of
`destPeers`, in order; the returned error is always nil.  The trace lists the `go`
statements of the loop as written.  A `Send` on the nil interface value (`none`) is a
run-time panic in Go, so at run time the statements listed after such an entry are not
reached; what is proved of a trace below (an event is absent, or occurs at most once)
holds of each of its prefixes as well.  The statements a run executes are
`sendMsgExecuted`. -/
def sendMsg (destPeers : List (Option Peer)) (payload : Payload) (ethMsgCode : Nat) :
    List Event × Option Err :=
  (destPeers.map (fun peer => Event.send peer ethMsgCode payload), none)

/-- The `if sendToSelf` block of `Multicast`. -/
def postToSelf (payload : Payload) (sendToSelf : Bool) : List Event :=
  if sendToSelf then [Event.post payload] else []

/-- Embedding of `Backend.Multicast`: the calls made and the returned error. -/
def Multicast (sb : Backend) (destAddresses : Option (List Address)) (payload : Payload)
    (ethMsgCode : Nat) (sendToSelf : Bool) : List Event × Option Err :=
  if sb.isProxiedValidator then
    match sb.sendForwardMsg destAddresses ethMsgCode payload with
    | some err => ([Event.forward destAddresses ethMsgCode payload], some err)
    | none =>
      ([Event.forward destAddresses ethMsgCode payload] ++ postToSelf payload sendToSelf, none)
  else
    let found := getPeersFromDestAddresses sb destAddresses
    let destPeers := found.2
    let sent : List Event × Option Err :=
      if destPeers.length > 0 then sendMsg (destPeers.map some) payload ethMsgCode
      else ([], none)
    (found.1 ++ sent.1 ++ postToSelf payload sendToSelf, sent.2)

/-- The filtering loop of `Gossip` over `allPeers`, threading the cache and `peersToSend`. -/
def gossipLoop (sb : Backend) (payload : Payload) :
    List Peer → GossipCache → List (Option Peer) → GossipCache × List (Option Peer)
  | [], c, peersToSend => (c, peersToSend)
  | peer :: rest, c, peersToSend =>
    if checkPeerGossipCache sb c peer.node.addr payload then
      gossipLoop sb payload rest c peersToSend
    else
      gossipLoop sb payload rest (markPeerGossipCache sb c peer.node.addr payload)
        (peersToSend ++ [some peer])

/-- The cache and the slice `peersToSend` at the point where `Gossip` calls `sendMsg`:
`peersToSend` starts as `make([]consensus.Peer, 1)`, a slice holding one nil peer. -/
def gossipFilter (sb : Backend) (c : GossipCache) (payload : Payload) :
    GossipCache × List (Option Peer) :=
  gossipLoop sb payload (sb.findPeers none) (markSelfGossipCache sb c payload) [none]

/-- Outcome of one `Gossip` call. -/
structure GossipResult where
  cache : GossipCache
  trace : List Event
  err : Option Err

/-- Embedding of `Backend.Gossip`. -/
def Gossip (sb : Backend) (c : GossipCache) (payload : Payload) (ethMsgCode : Nat) :
    GossipResult :=
  let filtered := gossipFilter sb c payload
  let sent := sendMsg filtered.2 payload ethMsgCode
  { cache := filtered.1, trace := Event.findPeers none :: sent.1, err := sent.2 }

/-- Modelled from the spec: the two bounds of the gossip cache, which spec §4.2 makes
configuration: the fixed maximum entry count of a view and the maximum age past which an
entry is treated as absent even if still resident. -/
structure CacheBounds where
  maxEntries : Nat
  maxAge : Nat
deriving DecidableEq, Repr

/-- Modelled from the spec: lookup in one view of the bounded cache (spec §3, §4.2).  A view
lists its resident entries, most recently inserted first, each with its creation time; a
key is reported present at clock reading `now` when an entry for it is resident and not
older than the maximum age. -/
def viewHas {κ : Type} [DecidableEq κ] (b : CacheBounds) (now : Nat) (view : List (κ × Nat))
    (key : κ) : Bool :=
  view.any (fun e => decide (e.1 = key) && decide (now ≤ e.2 + b.maxAge))

/-- Modelled from the spec: insertion in one view of the bounded cache (spec §3, §4.2).
Inserting a key that is reported present changes nothing (insertion is idempotent);
otherwise a new entry created at `now` goes in front, a resident entry of the same key
that is past the maximum age is dropped, and the view is cut to the maximum entry count by
evicting the least recently inserted entries. -/
def viewMark {κ : Type} [DecidableEq κ] (b : CacheBounds) (now : Nat) (view : List (κ × Nat))
    (key : κ) : List (κ × Nat) :=
  if viewHas b now view key then view
  else ((key, now) :: view.filter (fun e => decide (e.1 ≠ key))).take b.maxEntries

/-- Modelled from the spec: the gossip deduplication cache with its bounds (spec §3, §4.2):
the self view keyed by payload fingerprint and the per-peer view keyed by (peer identity,
payload fingerprint). -/
structure BoundedGossipCache where
  selfView : List (Fingerprint × Nat)
  peerView : List ((Address × Fingerprint) × Nat)
deriving DecidableEq, Repr

/-- Modelled from the spec: `markSelf(fingerprint)` on the bounded cache, the helper
`sb.markSelfGossipCache` declared outside the embedded files, run at clock reading `now`. -/
def markSelfGossipCacheBounded (sb : Backend) (b : CacheBounds) (now : Nat)
    (c : BoundedGossipCache) (payload : Payload) : BoundedGossipCache :=
  { c with selfView := viewMark b now c.selfView (sb.fingerprint payload) }

/-- Modelled from the spec: `hasSelfGossiped(fingerprint)` on the bounded cache, asked at
clock reading `now`. -/
def hasSelfGossipedBounded (sb : Backend) (b : CacheBounds) (now : Nat)
    (c : BoundedGossipCache) (payload : Payload) : Bool :=
  viewHas b now c.selfView (sb.fingerprint payload)

/-- Modelled from the spec: `hasPeerSeen(peerIdentity, fingerprint)` on the bounded cache,
the helper `sb.checkPeerGossipCache` declared outside the embedded files, asked at clock
reading `now`. -/
def checkPeerGossipCacheBounded (sb : Backend) (b : CacheBounds) (now : Nat)
    (c : BoundedGossipCache) (nodeAddr : Address) (payload : Payload) : Bool :=
  viewHas b now c.peerView (nodeAddr, sb.fingerprint payload)

/-- Modelled from the spec: `markPeer(peerIdentity, fingerprint)` on the bounded cache, the
helper `sb.markPeerGossipCache` declared outside the embedded files, run at clock reading
`now`. -/
def markPeerGossipCacheBounded (sb : Backend) (b : CacheBounds) (now : Nat)
    (c : BoundedGossipCache) (nodeAddr : Address) (payload : Payload) : BoundedGossipCache :=
  { c with peerView := viewMark b now c.peerView (nodeAddr, sb.fingerprint payload) }

/-- The filtering loop of `Gossip` over `allPeers` on the bounded cache.  The iteration
numbered `i` checks and marks at clock reading `clock i`. -/
def gossipLoopBounded (sb : Backend) (b : CacheBounds) (clock : Nat → Nat) (payload : Payload) :
    List Peer → Nat → BoundedGossipCache → List (Option Peer) →
      BoundedGossipCache × List (Option Peer)
  | [], _, c, peersToSend => (c, peersToSend)
  | peer :: rest, i, c, peersToSend =>
    if checkPeerGossipCacheBounded sb b (clock i) c peer.node.addr payload then
      gossipLoopBounded sb b clock payload rest (i + 1) c peersToSend
    else
      gossipLoopBounded sb b clock payload rest (i + 1)
        (markPeerGossipCacheBounded sb b (clock i) c peer.node.addr payload)
        (peersToSend ++ [some peer])

/-- The bounded cache and the slice `peersToSend` at the point where `Gossip` calls
`sendMsg`: the self mark is made at clock reading `clock 0`, the iteration for the peer
visited in position `i` (counting from 1) runs at `clock i`. -/
def gossipFilterBounded (sb : Backend) (b : CacheBounds) (clock : Nat → Nat)
    (c : BoundedGossipCache) (payload : Payload) : BoundedGossipCache × List (Option Peer) :=
  gossipLoopBounded sb b clock payload (sb.findPeers none) 1
    (markSelfGossipCacheBounded sb b (clock 0) c payload) [none]

/-- The `go` statements of `sendMsg` that a run executes, and whether the loop ended in the
run-time panic that `go peer.Send` raises on a nil peer. -/
def sendMsgExecuted : List (Option Peer) → Payload → Nat → List Event × Bool
  | [], _, _ => ([], false)
  | none :: _, payload, ethMsgCode => ([Event.send none ethMsgCode payload], true)
  | some peer :: rest, payload, ethMsgCode =>
    (Event.send (some peer) ethMsgCode payload :: (sendMsgExecuted rest payload ethMsgCode).1,
      (sendMsgExecuted rest payload ethMsgCode).2)

/-- Header fields read by the API: `header.Number` and `header.Hash()`. -/
structure Header where
  number : Nat
  hash : Hash
deriving DecidableEq, Repr

/-- The `consensus.ChainReader` methods used by `GetSnapshot`; `none` is a nil header. -/
structure ChainReader where
  currentHeader : Option Header
  getHeaderByNumber : Nat → Option Header

/-- The receiver of the API methods. -/
structure API where
  chain : ChainReader
  istanbul : Backend

/-- Modelled from the spec: the sentinel `errUnknownBlock`, declared outside the embedded
files; the UnknownBlock error of spec §7. -/
def errUnknownBlock : Err := "unknown block"

/-- Conversion `uint64(number.Int64())` of an `rpc.BlockNumber`. -/
def blockNumberToUint64 (number : Int) : Nat :=
  (number % 18446744073709551616).toNat

/-- The header `GetSnapshot` resolves for its argument; `latest` is `rpc.LatestBlockNumber`. -/
def resolveHeader (latest : Int) (chain : ChainReader) (number : Option Int) : Option Header :=
  match number with
  | none => chain.currentHeader
  | some n =>
    if n = latest then chain.currentHeader
    else chain.getHeaderByNumber (blockNumberToUint64 n)

/-- Embedding of `API.GetSnapshot`.  `snapshot` is `api.istanbul.snapshot` applied to the
chain, and `latest` is `rpc.LatestBlockNumber`.  The result is the returned pair together
with the list of snapshot-engine calls made, as (`header.Number.Uint64()`, `header.Hash()`). -/
def GetSnapshot {Snap : Type} (snapshot : Nat → Hash → Option Snap × Option Err)
    (latest : Int) (api : API) (number : Option Int) :
    (Option Snap × Option Err) × List (Nat × Hash) :=
  match resolveHeader latest api.chain number with
  | none => ((none, some errUnknownBlock), [])
  | some header =>
    (snapshot (header.number % 18446744073709551616) header.hash,
      [(header.number % 18446744073709551616, header.hash)])

/-- Requests issued by the sentry API to the backend and the network layer. -/
inductive SentryCall where
  /-- Records `api.istanbul.addSentryPeer(node, externalNode)`. -/
  | addSentryPeer (node externalNode : Option Node)
  /-- Records `api.istanbul.broadcaster.RemoveSentryPeer(node)`. -/
  | removeSentryPeer (node : Option Node)
deriving DecidableEq

/-- Embedding of `API.AddSentry`.  `parseV4` is `enode.ParseV4` (node pointer and error);
`calls` is the list of sentry requests issued so far, extended by this call. -/
def AddSentry (parseV4 : String → Option Node × Option Err) (api : API)
    (calls : List SentryCall) (url externalUrl : String) :
    (Bool × Option Err) × List SentryCall :=
  if !api.istanbul.proxied then
    ((false, some "Can't add sentry for node that is not configured to be proxied"), calls)
  else
    match parseV4 url with
    | (_, some err) => ((false, some ("invalid enode: " ++ err)), calls)
    | (node, none) =>
      match parseV4 externalUrl with
      | (_, some err) => ((false, some ("invalid external enode: " ++ err)), calls)
      | (externalNode, none) =>
        ((true, none), calls ++ [SentryCall.addSentryPeer node externalNode])

/-- Embedding of `API.RemoveSentry`. -/
def RemoveSentry (parseV4 : String → Option Node × Option Err) (_api : API)
    (calls : List SentryCall) (url : String) : (Bool × Option Err) × List SentryCall :=
  match parseV4 url with
  | (_, some err) => ((false, some ("invalid enode: " ++ err)), calls)
  | (node, none) => ((true, none), calls ++ [SentryCall.removeSentryPeer node])

/-- Recognises a call of `SendForwardMsg`. -/
def Event.isForward : Event → Bool
  | Event.forward _ _ _ => true
  | _ => false

/-- Recognises a call of `GetNodeFromAddress`. -/
def Event.isLookup : Event → Bool
  | Event.lookup _ => true
  | _ => false

/-- Recognises a call of `FindPeers`. -/
def Event.isFindPeers : Event → Bool
  | Event.findPeers _ => true
  | _ => false

/-- Recognises a dispatched `peer.Send`. -/
def Event.isSend : Event → Bool
  | Event.send _ _ _ => true
  | _ => false

/-- Recognises a post to the local event mux. -/
def Event.isPost : Event → Bool
  | Event.post _ => true
  | _ => false

/-! ## Concrete data used by the worked scenarios -/

def peerA : Peer := { node := { id := 1, addr := 101 } }

def peerB : Peer := { node := { id := 2, addr := 102 } }

def peerC : Peer := { node := { id := 3, addr := 103 } }

/-- A direct (non-proxied) node connected to `peerA`, `peerB`, `peerC`; the enode table
knows addresses 101 and 102 only. -/
def directBackend : Backend where
  proxied := false
  isProxiedValidator := false
  sendForwardMsg := fun _ _ _ => none
  getNodeFromAddress := fun a =>
    if a = 101 then (some peerA.node, none)
    else if a = 102 then (some peerB.node, none)
    else (none, some "not found")
  findPeers := fun targets =>
    match targets with
    | none => [peerA, peerB, peerC]
    | some t => [peerA, peerB, peerC].filter (fun p => decide (p.node.id ∈ t))
  fingerprint := fun payload => payload.sum

/-- A proxied node whose proxy handler fails to forward. -/
def failingProxyBackend : Backend where
  proxied := true
  isProxiedValidator := true
  sendForwardMsg := fun _ _ _ => some "no proxy connected"
  getNodeFromAddress := fun _ => (none, some "not found")
  findPeers := fun _ => []
  fingerprint := fun payload => payload.sum

/-- The payload X of the scenarios. -/
def payloadX : Payload := [7, 7]

/-- Cache in which only `peerA` is recorded for `payloadX`. -/
def cacheAfterA : GossipCache :=
  markPeerGossipCache directBackend { selfView := [], peerView := [] } peerA.node.addr payloadX

/-- Bounds under which each view holds two entries. -/
def tightBounds : CacheBounds := { maxEntries := 2, maxAge := 100 }

/-- Bounds under which an entry lives five clock units. -/
def shortLivedBounds : CacheBounds := { maxEntries := 10, maxAge := 5 }

/-- Bounds that three peers and one payload do not reach. -/
def roomyBounds : CacheBounds := { maxEntries := 4, maxAge := 10 }

/-- The bounded cache with nothing recorded. -/
def emptyBoundedCache : BoundedGossipCache := { selfView := [], peerView := [] }

/-- A chain whose head is block 5 and whose by-number index has not caught up with it. -/
def staleChain : ChainReader where
  currentHeader := some { number := 5, hash := 55 }
  getHeaderByNumber := fun _ => none

/-- A chain whose head is block 5 and whose by-number index knows it. -/
def settledChain : ChainReader where
  currentHeader := some { number := 5, hash := 55 }
  getHeaderByNumber := fun n => if n = 5 then some { number := 5, hash := 55 } else none

/-- A snapshot engine that answers every request with the block number it was asked for. -/
def echoSnapshot : Nat → Hash → Option Nat × Option Err :=
  fun number _ => (some number, none)

/-- A stand-in for `enode.ParseV4`: a string whose characters start with "enode://" parses,
to a node numbered by the length of the string; anything else is rejected. -/
def toyParseV4 : String → Option Node × Option Err :=
  fun url =>
    if List.isPrefixOf "enode://".data url.data then
      (some { id := url.data.length, addr := url.data.length }, none)
    else (none, some "invalid URL scheme")

/-! ## The gossip cache -/

theorem checkPeer_markPeer_self (sb : Backend) (c : GossipCache) (a : Address) (P : Payload) :
    checkPeerGossipCache sb (markPeerGossipCache sb c a P) a P = true := by
  unfold checkPeerGossipCache markPeerGossipCache
  split <;> simp_all

theorem checkPeer_markPeer_mono (sb : Backend) (c : GossipCache) (a b : Address)
    (P Q : Payload) (h : checkPeerGossipCache sb c b Q = true) :
    checkPeerGossipCache sb (markPeerGossipCache sb c a P) b Q = true := by
  unfold checkPeerGossipCache markPeerGossipCache at *
  split <;> simp_all

theorem checkPeer_markSelf (sb : Backend) (c : GossipCache) (a : Address) (P Q : Payload) :
    checkPeerGossipCache sb (markSelfGossipCache sb c P) a Q = checkPeerGossipCache sb c a Q := by
  unfold checkPeerGossipCache markSelfGossipCache
  split <;> rfl

/-! ## The filtering loop of `Gossip` -/

theorem gossipLoop_mono (sb : Backend) (P : Payload) (b : Address) (Q : Payload) :
    ∀ (ps : List Peer) (c : GossipCache) (acc : List (Option Peer)),
      checkPeerGossipCache sb c b Q = true →
      checkPeerGossipCache sb (gossipLoop sb P ps c acc).1 b Q = true := by
  intro ps
  induction ps with
  | nil => intro c acc h; simpa [gossipLoop] using h
  | cons p rest ih =>
    intro c acc h
    simp only [gossipLoop]
    split
    · exact ih c acc h
    · exact ih _ _ (checkPeer_markPeer_mono sb c _ b P Q h)

theorem gossipLoop_marks (sb : Backend) (P : Payload) :
    ∀ (ps : List Peer) (c : GossipCache) (acc : List (Option Peer)) (p : Peer), p ∈ ps →
      checkPeerGossipCache sb (gossipLoop sb P ps c acc).1 p.node.addr P = true := by
  intro ps
  induction ps with
  | nil => intro c acc p hp; cases hp
  | cons q rest ih =>
    intro c acc p hp
    simp only [gossipLoop]
    rcases List.mem_cons.mp hp with rfl | hrest
    · split
      · rename_i hc
        exact gossipLoop_mono sb P _ P rest c acc hc
      · exact gossipLoop_mono sb P _ P rest _ _ (checkPeer_markPeer_self sb c _ P)
    · split
      · exact ih c acc p hrest
      · exact ih _ _ p hrest

theorem gossipLoop_mem (sb : Backend) (P : Payload) :
    ∀ (ps : List Peer) (c : GossipCache) (acc : List (Option Peer)) (q : Peer),
      some q ∈ (gossipLoop sb P ps c acc).2 →
      some q ∈ acc ∨ (q ∈ ps ∧ checkPeerGossipCache sb c q.node.addr P = false) := by
  intro ps
  induction ps with
  | nil => intro c acc q h; exact Or.inl (by simpa [gossipLoop] using h)
  | cons p rest ih =>
    intro c acc q h
    simp only [gossipLoop] at h
    split at h
    · rcases ih c acc q h with h1 | ⟨h1, h2⟩
      · exact Or.inl h1
      · exact Or.inr ⟨List.mem_cons_of_mem _ h1, h2⟩
    · rename_i hc
      rcases ih _ _ q h with h1 | ⟨h1, h2⟩
      · rcases List.mem_append.mp h1 with h3 | h3
        · exact Or.inl h3
        · have hq : q = p := by simpa using h3
          subst hq
          exact Or.inr ⟨List.mem_cons_self _ _, by simpa using hc⟩
      · refine Or.inr ⟨List.mem_cons_of_mem _ h1, ?_⟩
        cases hq : checkPeerGossipCache sb c q.node.addr P with
        | false => rfl
        | true =>
          have := checkPeer_markPeer_mono sb c p.node.addr q.node.addr P P hq
          rw [this] at h2
          cases h2

theorem gossipLoop_count (sb : Backend) (P : Payload) :
    ∀ (ps : List Peer) (c : GossipCache) (acc : List (Option Peer)),
      (∀ q : Peer, some q ∈ acc → checkPeerGossipCache sb c q.node.addr P = true) →
      (∀ q : Peer, acc.count (some q) ≤ 1) →
      ∀ q : Peer, (gossipLoop sb P ps c acc).2.count (some q) ≤ 1 := by
  intro ps
  induction ps with
  | nil => intro c acc _ h2 q; simpa [gossipLoop] using h2 q
  | cons p rest ih =>
    intro c acc h1 h2 q
    simp only [gossipLoop]
    split
    · exact ih c acc h1 h2 q
    · rename_i hc
      refine ih _ _ ?_ ?_ q
      · intro r hr
        rcases List.mem_append.mp hr with h3 | h3
        · exact checkPeer_markPeer_mono sb c _ _ P P (h1 r h3)
        · have hr : r = p := by simpa using h3
          subst hr
          exact checkPeer_markPeer_self sb c _ P
      · intro r
        rw [List.count_append]
        by_cases hr : r = p
        · subst hr
          have hnot : some r ∉ acc := fun hm => hc (h1 r hm)
          rw [List.count_eq_zero_of_not_mem hnot]
          simp
        · have : List.count (some r) [some p] = 0 := by
            apply List.count_eq_zero_of_not_mem
            simpa using hr
          rw [this]
          exact h2 r

theorem count_send_map (code : Nat) (P : Payload) (x : Option Peer) :
    ∀ l : List (Option Peer),
      (l.map (fun peer => Event.send peer code P)).count (Event.send x code P) = l.count x := by
  intro l
  induction l with
  | nil => rfl
  | cons y rest ih =>
    simp only [List.map_cons, List.count_cons, ih]
    by_cases h : y = x
    · subst h; simp
    · have : ¬ Event.send y code P = Event.send x code P := by
        intro he; injection he with h1; exact h h1
      simp [h, this]

theorem send_mem_Gossip_trace (sb : Backend) (c : GossipCache) (P : Payload) (code : Nat)
    (x : Option Peer) :
    Event.send x code P ∈ (Gossip sb c P code).trace ↔ x ∈ (gossipFilter sb c P).2 := by
  simp [Gossip, sendMsg]

theorem count_send_Gossip_trace (sb : Backend) (c : GossipCache) (P : Payload) (code : Nat)
    (x : Option Peer) :
    (Gossip sb c P code).trace.count (Event.send x code P) = (gossipFilter sb c P).2.count x := by
  simp only [Gossip, sendMsg]
  rw [List.count_cons, count_send_map]
  simp

/-! ## Gossip -/

/-- C1: when `Gossip` runs twice on the same payload and message code, and the per-peer
cache at the second call still holds every entry it held after the first call (nothing
was evicted in between), then over the two traces together `Send(code, payload)` is
dispatched at most once to each peer connected at the first call, and the second call
dispatches to no peer whose address the cache recorded after the first call.  The peer
list of the second call may be any list, so in particular the same peer set visited in
another map order. -/
theorem Gossip_twice_sends_at_most_once (sb : Backend)
    (peersAgain : Option (Finset NodeID) → List Peer) (c cNext : GossipCache)
    (payload : Payload) (ethMsgCode : Nat)
    (hkeep : ∀ a : Address,
      checkPeerGossipCache sb (Gossip sb c payload ethMsgCode).cache a payload = true →
      checkPeerGossipCache sb cNext a payload = true) :
    (∀ p ∈ sb.findPeers none,
      ((Gossip sb c payload ethMsgCode).trace ++
        (Gossip { sb with findPeers := peersAgain } cNext payload ethMsgCode).trace).count
          (Event.send (some p) ethMsgCode payload) ≤ 1) ∧
    (∀ p : Peer,
      checkPeerGossipCache sb (Gossip sb c payload ethMsgCode).cache p.node.addr payload = true →
      Event.send (some p) ethMsgCode payload ∉
        (Gossip { sb with findPeers := peersAgain } cNext payload ethMsgCode).trace) := by
  have hsecond : ∀ p : Peer,
      checkPeerGossipCache sb (Gossip sb c payload ethMsgCode).cache p.node.addr payload = true →
      Event.send (some p) ethMsgCode payload ∉
        (Gossip { sb with findPeers := peersAgain } cNext payload ethMsgCode).trace := by
    intro p hp hmem
    rw [send_mem_Gossip_trace] at hmem
    have hrec : checkPeerGossipCache { sb with findPeers := peersAgain } cNext
        p.node.addr payload = true := hkeep _ hp
    rcases gossipLoop_mem _ payload _ _ _ p hmem with h1 | ⟨_, h2⟩
    · simp at h1
    · rw [checkPeer_markSelf, hrec] at h2
      cases h2
  refine ⟨?_, hsecond⟩
  intro p hp
  have hmarked :
      checkPeerGossipCache sb (Gossip sb c payload ethMsgCode).cache p.node.addr payload = true :=
    gossipLoop_marks sb payload _ _ _ p hp
  rw [List.count_append, List.count_eq_zero_of_not_mem (hsecond p hmarked),
    count_send_Gossip_trace]
  exact gossipLoop_count sb payload _ _ _ (by simp) (by simp) p

/-- C1 (instance): the three-peer scenario, gossiping the same payload twice; between the
calls the cache gains an unrelated entry and the peer map is visited in another order. -/
theorem Gossip_twice_sends_at_most_once_witness :
    (∀ a : Address,
      checkPeerGossipCache directBackend (Gossip directBackend cacheAfterA payloadX 17).cache
        a payloadX = true →
      checkPeerGossipCache directBackend
        (markPeerGossipCache directBackend (Gossip directBackend cacheAfterA payloadX 17).cache
          999 [1]) a payloadX = true) ∧
    ((Gossip directBackend cacheAfterA payloadX 17).trace ++
      (Gossip { directBackend with findPeers := fun _ => [peerC, peerB, peerA] }
        (markPeerGossipCache directBackend (Gossip directBackend cacheAfterA payloadX 17).cache
          999 [1]) payloadX 17).trace).count
        (Event.send (some peerB) 17 payloadX) ≤ 1 :=
  ⟨fun a h => checkPeer_markPeer_mono directBackend _ 999 a [1] payloadX h,
    (Gossip_twice_sends_at_most_once directBackend (fun _ => [peerC, peerB, peerA]) cacheAfterA
      (markPeerGossipCache directBackend (Gossip directBackend cacheAfterA payloadX 17).cache
        999 [1]) payloadX 17
      (fun a h => checkPeer_markPeer_mono directBackend _ 999 a [1] payloadX h)).1
      peerB (by decide)⟩

/-- C4 (failing input): with peers A, B, C connected and only A recorded for X, the slice
that `Gossip(X)` hands to `sendMsg` is a nil peer followed by B and C, and the first
`go peer.Send` that `sendMsg` executes is on that nil peer. -/
theorem Gossip_scenario_hands_nil_peer :
    (gossipFilter directBackend cacheAfterA payloadX).2 = [none, some peerB, some peerC] ∧
    (Gossip directBackend cacheAfterA payloadX 17).trace.take 2 =
      [Event.findPeers none, Event.send none 17 payloadX] := by
  decide

/-- On every input the slice handed to `sendMsg` by `Gossip` starts with the nil peer left
by `make([]consensus.Peer, 1)`. -/
theorem gossipLoop_acc_head (sb : Backend) (P : Payload) :
    ∀ (ps : List Peer) (c : GossipCache) (acc : List (Option Peer)),
      ∃ more, (gossipLoop sb P ps c acc).2 = acc ++ more := by
  intro ps
  induction ps with
  | nil => intro c acc; exact ⟨[], by simp [gossipLoop]⟩
  | cons p rest ih =>
    intro c acc
    simp only [gossipLoop]
    split
    · exact ih c acc
    · obtain ⟨more, hmore⟩ := ih (markPeerGossipCache sb c p.node.addr P) (acc ++ [some p])
      exact ⟨some p :: more, by rw [hmore]; simp⟩

theorem gossipFilter_head_nil (sb : Backend) (c : GossipCache) (P : Payload) :
    ∃ more, (gossipFilter sb c P).2 = none :: more := by
  obtain ⟨more, hmore⟩ := gossipLoop_acc_head sb P (sb.findPeers none)
    (markSelfGossipCache sb c P) [none]
  exact ⟨more, by simpa [gossipFilter] using hmore⟩

theorem checkPeer_markPeer_ne (sb : Backend) (c : GossipCache) (a b : Address)
    (P : Payload) (hab : b ≠ a) :
    checkPeerGossipCache sb (markPeerGossipCache sb c a P) b P = checkPeerGossipCache sb c b P := by
  unfold checkPeerGossipCache markPeerGossipCache
  split
  · rfl
  · simp [hab]

theorem gossipLoop_eq (sb : Backend) (P : Payload) :
    ∀ (ps : List Peer) (c : GossipCache) (acc : List (Option Peer)),
      ps.Pairwise (fun p q => p.node.addr ≠ q.node.addr) →
      (gossipLoop sb P ps c acc).2 =
        acc ++ (ps.filter (fun p => !checkPeerGossipCache sb c p.node.addr P)).map some := by
  intro ps
  induction ps with
  | nil => intro c acc _; simp [gossipLoop]
  | cons p rest ih =>
    intro c acc hpw
    rw [List.pairwise_cons] at hpw
    simp only [gossipLoop]
    split
    · rename_i hc
      rw [ih c acc hpw.2]
      simp [List.filter_cons, hc]
    · rename_i hc
      rw [ih _ _ hpw.2]
      have hcongr : rest.filter
            (fun q => !checkPeerGossipCache sb (markPeerGossipCache sb c p.node.addr P)
              q.node.addr P) =
          rest.filter (fun q => !checkPeerGossipCache sb c q.node.addr P) := by
        apply List.filter_congr
        intro q hq
        rw [checkPeer_markPeer_ne sb c p.node.addr q.node.addr P (fun h => hpw.1 q hq h.symm)]
      rw [hcongr]
      simp [List.filter_cons, hc]

/-- When the connected peers have pairwise distinct addresses, the slice `Gossip` hands to
`sendMsg` is the nil peer followed by the connected peers not recorded for the payload
when `Gossip` was called, each once, in map order. -/
theorem gossipFilter_eq (sb : Backend) (c : GossipCache) (P : Payload)
    (hpw : (sb.findPeers none).Pairwise (fun p q => p.node.addr ≠ q.node.addr)) :
    (gossipFilter sb c P).2 =
      none :: ((sb.findPeers none).filter
        (fun p => !checkPeerGossipCache sb c p.node.addr P)).map some := by
  unfold gossipFilter
  rw [gossipLoop_eq sb P _ _ _ hpw]
  simp [checkPeer_markSelf]

/-! ## The bounded cache -/

theorem viewHas_iff {κ : Type} [DecidableEq κ] (b : CacheBounds) (now : Nat)
    (view : List (κ × Nat)) (key : κ) :
    viewHas b now view key = true ↔ ∃ e ∈ view, e.1 = key ∧ now ≤ e.2 + b.maxAge := by
  simp [viewHas, List.any_eq_true]

theorem viewMark_length_le {κ : Type} [DecidableEq κ] (b : CacheBounds) (now : Nat)
    (view : List (κ × Nat)) (key : κ) :
    (viewMark b now view key).length ≤ view.length + 1 := by
  unfold viewMark
  split
  · omega
  · have h1 := List.length_filter_le (fun e : κ × Nat => decide (e.1 ≠ key)) view
    rw [List.length_take, List.length_cons]
    omega

theorem viewMark_of_room {κ : Type} [DecidableEq κ] (b : CacheBounds) (now : Nat)
    (view : List (κ × Nat)) (key : κ) (hroom : view.length + 1 ≤ b.maxEntries)
    (habsent : viewHas b now view key = false) :
    viewMark b now view key = (key, now) :: view.filter (fun e => decide (e.1 ≠ key)) := by
  unfold viewMark
  rw [habsent]
  simp only [Bool.false_eq_true, if_false]
  apply List.take_of_length_le
  have h1 := List.length_filter_le (fun e : κ × Nat => decide (e.1 ≠ key)) view
  simp only [List.length_cons]
  omega

theorem viewMark_mem {κ : Type} [DecidableEq κ] (b : CacheBounds) (now : Nat)
    (view : List (κ × Nat)) (key : κ) (e : κ × Nat) (he : e ∈ viewMark b now view key) :
    e ∈ view ∨ e = (key, now) := by
  unfold viewMark at he
  split at he
  · exact Or.inl he
  · have h1 := List.mem_of_mem_take he
    rcases List.mem_cons.mp h1 with h2 | h2
    · exact Or.inr h2
    · exact Or.inl (List.mem_filter.mp h2).1

theorem viewMark_keeps {κ : Type} [DecidableEq κ] (b : CacheBounds) (now tEnd : Nat)
    (view : List (κ × Nat)) (key other : κ) (hroom : view.length + 1 ≤ b.maxEntries)
    (hshort : tEnd ≤ now + b.maxAge) (hother : viewHas b tEnd view other = true) :
    viewHas b tEnd (viewMark b now view key) other = true := by
  cases habsent : viewHas b now view key with
  | true => simpa [viewMark, habsent] using hother
  | false =>
    rw [viewMark_of_room b now view key hroom habsent, viewHas_iff]
    obtain ⟨e, he, hk, hlive⟩ := (viewHas_iff b tEnd view other).mp hother
    by_cases hsame : other = key
    · exact ⟨(key, now), List.mem_cons_self _ _, hsame.symm, hshort⟩
    · refine ⟨e, List.mem_cons_of_mem _ (List.mem_filter.mpr ⟨he, ?_⟩), hk, hlive⟩
      simp [hk, hsame]

theorem viewMark_records {κ : Type} [DecidableEq κ] (b : CacheBounds) (now tEnd : Nat)
    (view : List (κ × Nat)) (key : κ) (hroom : view.length + 1 ≤ b.maxEntries)
    (hshort : tEnd ≤ now + b.maxAge)
    (hage : ∀ e ∈ view, now ≤ e.2 + b.maxAge → tEnd ≤ e.2 + b.maxAge) :
    viewHas b tEnd (viewMark b now view key) key = true := by
  cases habsent : viewHas b now view key with
  | true =>
    obtain ⟨e, he, hk, hlive⟩ := (viewHas_iff b now view key).mp habsent
    have : viewMark b now view key = view := by simp [viewMark, habsent]
    rw [this, viewHas_iff]
    exact ⟨e, he, hk, hage e he hlive⟩
  | false =>
    rw [viewMark_of_room b now view key hroom habsent, viewHas_iff]
    exact ⟨(key, now), List.mem_cons_self _ _, rfl, hshort⟩

theorem gossipLoopBounded_records (sb : Backend) (b : CacheBounds) (clock : Nat → Nat)
    (payload : Payload) (tEnd n : Nat)
    (hshort : ∀ i, i ≤ n → tEnd ≤ clock i + b.maxAge) :
    ∀ (ps : List Peer) (i : Nat) (c : BoundedGossipCache) (acc : List (Option Peer)),
      i + ps.length ≤ n + 1 →
      c.peerView.length + ps.length ≤ b.maxEntries →
      (∀ e ∈ c.peerView, ∀ j, j ≤ n → clock j ≤ e.2 + b.maxAge → tEnd ≤ e.2 + b.maxAge) →
      (gossipLoopBounded sb b clock payload ps i c acc).1.selfView = c.selfView ∧
      (∀ key, viewHas b tEnd c.peerView key = true →
        viewHas b tEnd (gossipLoopBounded sb b clock payload ps i c acc).1.peerView key = true) ∧
      (∀ p ∈ ps, checkPeerGossipCacheBounded sb b tEnd
        (gossipLoopBounded sb b clock payload ps i c acc).1 p.node.addr payload = true) := by
  intro ps
  induction ps with
  | nil =>
    intro i c acc _ _ _
    exact ⟨rfl, fun _ h => h, fun p hp => by cases hp⟩
  | cons q rest ih =>
    intro i c acc hi hroom hage
    simp only [List.length_cons] at hi hroom
    have hin : i ≤ n := by omega
    simp only [gossipLoopBounded]
    split
    · rename_i hc
      obtain ⟨h1, h2, h3⟩ := ih (i + 1) c acc (by omega) (by omega) hage
      refine ⟨h1, h2, ?_⟩
      intro p hp
      rcases List.mem_cons.mp hp with rfl | hrest
      · obtain ⟨e, he, hk, hlive⟩ := (viewHas_iff b (clock i) c.peerView _).mp hc
        exact h2 _ ((viewHas_iff b tEnd c.peerView _).mpr ⟨e, he, hk, hage e he i hin hlive⟩)
      · exact h3 p hrest
    · have hlen := viewMark_length_le b (clock i) c.peerView (q.node.addr, sb.fingerprint payload)
      have hage2 : ∀ e ∈ (markPeerGossipCacheBounded sb b (clock i) c q.node.addr
          payload).peerView, ∀ j, j ≤ n → clock j ≤ e.2 + b.maxAge → tEnd ≤ e.2 + b.maxAge := by
        intro e he j hj hlive
        rcases viewMark_mem b (clock i) c.peerView _ e he with h | h
        · exact hage e h j hj hlive
        · subst h
          exact hshort i hin
      obtain ⟨h1, h2, h3⟩ := ih (i + 1)
        (markPeerGossipCacheBounded sb b (clock i) c q.node.addr payload) (acc ++ [some q])
        (by omega) (by simp only [markPeerGossipCacheBounded]; omega) hage2
      refine ⟨h1, ?_, ?_⟩
      · intro key hkey
        exact h2 key (viewMark_keeps b (clock i) tEnd c.peerView _ key (by omega)
          (hshort i hin) hkey)
      · intro p hp
        rcases List.mem_cons.mp hp with rfl | hrest
        · exact h2 _ (viewMark_records b (clock i) tEnd c.peerView _ (by omega) (hshort i hin)
            (fun e he hlive => hage e he i hin hlive))
        · exact h3 p hrest

/-- C5 (counterexample): with three connected peers A, B, C and an empty cache, the marks
of `Gossip(X)` do not leave A recorded in the per-peer view when a view holds two entries
(the mark for C evicts the one for A), nor when an entry lives five clock units and the
clock advances ten units per iteration (the mark for A has aged out when the loop ends). -/
theorem Gossip_marks_lost_by_eviction_or_age :
    (gossipFilterBounded directBackend tightBounds (fun _ => 0) emptyBoundedCache
      payloadX).1.peerView = [((103, 14), 0), ((102, 14), 0)] ∧
    checkPeerGossipCacheBounded directBackend tightBounds 0
      (gossipFilterBounded directBackend tightBounds (fun _ => 0) emptyBoundedCache payloadX).1
      peerA.node.addr payloadX = false ∧
    checkPeerGossipCacheBounded directBackend shortLivedBounds 30
      (gossipFilterBounded directBackend shortLivedBounds (fun i => 10 * i) emptyBoundedCache
        payloadX).1 peerA.node.addr payloadX = false := by
  decide

/-- C5 (amended): when no entry is evicted or ages out during the call, that is, the self
view has room for one more entry, the per-peer view has room for one more entry per
connected peer, the moment `tEnd` at which the cache is read lies within the maximum age
of every clock reading of the call, and no entry resident at the start that is still
within its age at a reading of the call is past it at `tEnd`, then the cache that
`Gossip` has built when it calls `sendMsg` records the payload in the self view and, for
every connected peer, skipped or added to the send set, in the per-peer view; the peer
list may be empty. -/
theorem Gossip_records_when_nothing_is_lost (sb : Backend) (b : CacheBounds)
    (clock : Nat → Nat) (c : BoundedGossipCache) (payload : Payload) (tEnd : Nat)
    (hroomSelf : c.selfView.length + 1 ≤ b.maxEntries)
    (hroomPeer : c.peerView.length + (sb.findPeers none).length ≤ b.maxEntries)
    (hshort : ∀ i, i ≤ (sb.findPeers none).length → tEnd ≤ clock i + b.maxAge)
    (hselfAge : ∀ e ∈ c.selfView, clock 0 ≤ e.2 + b.maxAge → tEnd ≤ e.2 + b.maxAge)
    (hpeerAge : ∀ e ∈ c.peerView, ∀ i, i ≤ (sb.findPeers none).length →
      clock i ≤ e.2 + b.maxAge → tEnd ≤ e.2 + b.maxAge) :
    hasSelfGossipedBounded sb b tEnd (gossipFilterBounded sb b clock c payload).1 payload = true ∧
    ∀ p ∈ sb.findPeers none,
      checkPeerGossipCacheBounded sb b tEnd (gossipFilterBounded sb b clock c payload).1
        p.node.addr payload = true := by
  obtain ⟨h1, _, h3⟩ := gossipLoopBounded_records sb b clock payload tEnd
    (sb.findPeers none).length hshort (sb.findPeers none) 1
    (markSelfGossipCacheBounded sb b (clock 0) c payload) [none] (by omega)
    (by simpa [markSelfGossipCacheBounded] using hroomPeer)
    (by simpa [markSelfGossipCacheBounded] using hpeerAge)
  constructor
  · unfold hasSelfGossipedBounded gossipFilterBounded
    rw [h1]
    exact viewMark_records b (clock 0) tEnd c.selfView _ hroomSelf (hshort 0 (Nat.zero_le _))
      hselfAge
  · exact h3

/-- C5 (instance): the three-peer scenario with A already recorded at time 0, bounds that
are not reached, and a clock that advances one unit per cache operation. -/
theorem Gossip_records_when_nothing_is_lost_witness :
    ({ selfView := [], peerView := [((101, 14), 0)] } : BoundedGossipCache).selfView.length + 1 ≤
        roomyBounds.maxEntries ∧
    ({ selfView := [], peerView := [((101, 14), 0)] } : BoundedGossipCache).peerView.length +
        (directBackend.findPeers none).length ≤ roomyBounds.maxEntries ∧
    hasSelfGossipedBounded directBackend roomyBounds 3
      (gossipFilterBounded directBackend roomyBounds (fun i => i)
        { selfView := [], peerView := [((101, 14), 0)] } payloadX).1 payloadX = true ∧
    ∀ p ∈ directBackend.findPeers none,
      checkPeerGossipCacheBounded directBackend roomyBounds 3
        (gossipFilterBounded directBackend roomyBounds (fun i => i)
          { selfView := [], peerView := [((101, 14), 0)] } payloadX).1 p.node.addr payloadX = true :=
  ⟨by decide, by decide,
    Gossip_records_when_nothing_is_lost directBackend roomyBounds (fun i => i)
      { selfView := [], peerView := [((101, 14), 0)] } payloadX 3 (by decide) (by decide)
      (fun i _ => by simp only [roomyBounds]; omega)
      (fun e he => by simp at he)
      (fun e he i _ _ => by
        simp only [List.mem_singleton] at he
        subst he
        simp only [roomyBounds]
        omega)⟩

/-! ## What a run of `sendMsg` executes -/

theorem sendMsgExecuted_prefix (payload : Payload) (code : Nat) :
    ∀ l : List (Option Peer),
      (sendMsgExecuted l payload code).1 <+: (sendMsg l payload code).1 := by
  intro l
  induction l with
  | nil => simp [sendMsgExecuted, sendMsg]
  | cons x rest ih =>
    cases x with
    | none =>
      simp only [sendMsgExecuted, sendMsg, List.map_cons]
      exact ⟨_, rfl⟩
    | some p =>
      simp only [sendMsgExecuted, sendMsg, List.map_cons]
      obtain ⟨t, ht⟩ := ih
      exact ⟨t, by simp only [sendMsg] at ht; simp [ht]⟩

/-- On every input the run of `sendMsg` that `Gossip` starts executes one statement, the
`go peer.Send` on the nil head of `peersToSend`, and ends in the panic. -/
theorem Gossip_sendMsg_panics (sb : Backend) (c : GossipCache) (payload : Payload)
    (code : Nat) :
    sendMsgExecuted (gossipFilter sb c payload).2 payload code =
      ([Event.send none code payload], true) := by
  obtain ⟨more, hmore⟩ := gossipFilter_head_nil sb c payload
  rw [hmore]
  rfl

/-! ## Multicast -/

theorem countP_postToSelf (f : Event → Bool) (payload : Payload) (sendToSelf : Bool)
    (hf : f (Event.post payload) = false) : (postToSelf payload sendToSelf).countP f = 0 := by
  cases sendToSelf <;> simp [postToSelf, hf]

theorem filter_postToSelf (f : Event → Bool) (payload : Payload) (sendToSelf : Bool)
    (hf : f (Event.post payload) = false) : (postToSelf payload sendToSelf).filter f = [] := by
  cases sendToSelf <;> simp [postToSelf, hf]

/-- C2 (failing input): on a proxied node whose `SendForwardMsg` returns an error,
`Multicast` with `sendToSelf = true` returns that error right after the forwarding call
and posts nothing to the local event stream. -/
theorem Multicast_forward_error_skips_self_post :
    Multicast failingProxyBackend (some [101]) payloadX 17 true =
      ([Event.forward (some [101]) 17 payloadX], some "no proxy connected") ∧
    (Multicast failingProxyBackend (some [101]) payloadX 17 true).1.countP Event.isPost = 0 := by
  decide

/-- The posts of `Multicast` on every input: the single post of the raw payload is made
exactly when `sendToSelf` is set and the call did not leave through the forwarding error. -/
theorem Multicast_posts (sb : Backend) (destAddresses : Option (List Address))
    (payload : Payload) (ethMsgCode : Nat) (sendToSelf : Bool) :
    (Multicast sb destAddresses payload ethMsgCode sendToSelf).1.filter Event.isPost =
      if sb.isProxiedValidator = true ∧
          sb.sendForwardMsg destAddresses ethMsgCode payload ≠ none then []
      else postToSelf payload sendToSelf := by
  unfold Multicast
  cases hp : sb.isProxiedValidator
  · have hnone : ∀ l : List Peer,
        (l.map (fun p => Event.send (some p) ethMsgCode payload)).filter Event.isPost = [] := by
      intro l
      induction l with
      | nil => rfl
      | cons q rest ih => simp [List.filter, Event.isPost]
    have hlook : ∀ l : List Address, (l.map Event.lookup).filter Event.isPost = [] := by
      intro l
      induction l with
      | nil => rfl
      | cons q rest ih => simp [List.filter, Event.isPost]
    have hself : (postToSelf payload sendToSelf).filter Event.isPost =
        postToSelf payload sendToSelf := by
      cases sendToSelf <;> simp [postToSelf, Event.isPost]
    cases destAddresses with
    | none =>
      by_cases hl : (sb.findPeers none).length > 0
      · simp [getPeersFromDestAddresses, destTargets, sendMsg, hl, hnone, hself,
          Event.isPost, List.filter]
      · simp [getPeersFromDestAddresses, destTargets, hl, hself, Event.isPost, List.filter]
    | some addrs =>
      by_cases hl : (sb.findPeers (some (resolveTargets sb addrs ∅))).length > 0
      · simp [getPeersFromDestAddresses, destTargets, sendMsg, hl, hnone, hlook, hself,
          Event.isPost, List.filter]
      · simp [getPeersFromDestAddresses, destTargets, hl, hlook, hself, Event.isPost,
          List.filter]
  · cases hf : sb.sendForwardMsg destAddresses ethMsgCode payload with
    | none => cases sendToSelf <;> simp [postToSelf, Event.isPost, List.filter]
    | some e => simp [Event.isPost, List.filter]

/-- C3: on a node for which `IsProxiedValidator()` holds, for every destination list (nil,
empty or not), payload, code and `sendToSelf`, the trace of `Multicast` is the single call
`SendForwardMsg(destAddresses, ethMsgCode, payload)`, followed only by the local post when
forwarding succeeded and `sendToSelf` is set: no `GetNodeFromAddress`, no `FindPeers`, no
peer `Send`; and the returned error is exactly the result of `SendForwardMsg`. -/
theorem Multicast_proxied_forwards_only (sb : Backend) (destAddresses : Option (List Address))
    (payload : Payload) (ethMsgCode : Nat) (sendToSelf : Bool)
    (hproxied : sb.isProxiedValidator = true) :
    (Multicast sb destAddresses payload ethMsgCode sendToSelf).1 =
      Event.forward destAddresses ethMsgCode payload ::
        (if sb.sendForwardMsg destAddresses ethMsgCode payload = none
          then postToSelf payload sendToSelf else []) ∧
    (Multicast sb destAddresses payload ethMsgCode sendToSelf).1.filter Event.isForward =
      [Event.forward destAddresses ethMsgCode payload] ∧
    (Multicast sb destAddresses payload ethMsgCode sendToSelf).1.countP Event.isLookup = 0 ∧
    (Multicast sb destAddresses payload ethMsgCode sendToSelf).1.countP Event.isFindPeers = 0 ∧
    (Multicast sb destAddresses payload ethMsgCode sendToSelf).1.countP Event.isSend = 0 ∧
    (Multicast sb destAddresses payload ethMsgCode sendToSelf).2 =
      sb.sendForwardMsg destAddresses ethMsgCode payload := by
  unfold Multicast
  rw [if_pos hproxied]
  cases hf : sb.sendForwardMsg destAddresses ethMsgCode payload with
  | some e => simp [Event.isForward, Event.isLookup, Event.isFindPeers, Event.isSend]
  | none =>
    cases sendToSelf <;>
      simp [postToSelf, Event.isForward, Event.isLookup, Event.isFindPeers, Event.isSend]

/-- C3 (instance): a proxied node multicasting to one address without self delivery. -/
theorem Multicast_proxied_forwards_only_witness :
    failingProxyBackend.isProxiedValidator = true ∧
    (Multicast failingProxyBackend (some [101]) payloadX 17 false).1.filter Event.isForward =
      [Event.forward (some [101]) 17 payloadX] :=
  ⟨rfl,
    (Multicast_proxied_forwards_only failingProxyBackend (some [101]) payloadX 17 false rfl).2.1⟩

/-- C7: on a node for which `IsProxiedValidator()` is false, `Multicast` with nil
`destAddresses` calls `FindPeers` once, with nil targets, dispatches one
`Send(ethMsgCode, payload)` per peer that `FindPeers` returned and nothing else to any
peer, looks no address up, does not forward, and returns a nil error. -/
theorem Multicast_direct_nil_sends_to_all (sb : Backend) (payload : Payload)
    (ethMsgCode : Nat) (sendToSelf : Bool) (hdirect : sb.isProxiedValidator = false) :
    Multicast sb none payload ethMsgCode sendToSelf =
      (Event.findPeers none ::
        ((sb.findPeers none).map (fun p => Event.send (some p) ethMsgCode payload) ++
          postToSelf payload sendToSelf), none) ∧
    (Multicast sb none payload ethMsgCode sendToSelf).1.filter Event.isSend =
      (sb.findPeers none).map (fun p => Event.send (some p) ethMsgCode payload) ∧
    (Multicast sb none payload ethMsgCode sendToSelf).1.filter Event.isFindPeers =
      [Event.findPeers none] ∧
    (Multicast sb none payload ethMsgCode sendToSelf).1.countP Event.isLookup = 0 ∧
    (Multicast sb none payload ethMsgCode sendToSelf).1.countP Event.isForward = 0 := by
  have hshape : Multicast sb none payload ethMsgCode sendToSelf =
      (Event.findPeers none ::
        ((sb.findPeers none).map (fun p => Event.send (some p) ethMsgCode payload) ++
          postToSelf payload sendToSelf), none) := by
    unfold Multicast
    rw [hdirect]
    by_cases hl : (sb.findPeers none).length > 0
    · simp [getPeersFromDestAddresses, destTargets, sendMsg, hl]
    · have hnil : sb.findPeers none = [] := by
        cases hfp : sb.findPeers none with
        | nil => rfl
        | cons q rest => rw [hfp] at hl; simp at hl
      simp [getPeersFromDestAddresses, destTargets, hnil]
  have hsend : ∀ l : List Peer,
      (l.map (fun p => Event.send (some p) ethMsgCode payload)).filter Event.isSend =
        l.map (fun p => Event.send (some p) ethMsgCode payload) := by
    intro l
    induction l with
    | nil => rfl
    | cons q rest ih => simp [List.filter, Event.isSend]
  have hother : ∀ (f : Event → Bool), (∀ p c q, f (Event.send p c q) = false) →
      ∀ l : List Peer,
        (l.map (fun p => Event.send (some p) ethMsgCode payload)).filter f = [] := by
    intro f hf l
    induction l with
    | nil => rfl
    | cons q rest ih => simp [List.filter, hf]
  refine ⟨hshape, ?_, ?_, ?_, ?_⟩
  · rw [hshape]
    simp [List.filter_cons, Event.isSend, hsend, filter_postToSelf]
  · rw [hshape]
    simp [List.filter_cons, Event.isFindPeers,
      hother Event.isFindPeers (fun _ _ _ => rfl), filter_postToSelf]
  · rw [hshape]
    simp [List.countP_eq_length_filter, List.filter_cons, Event.isLookup,
      hother Event.isLookup (fun _ _ _ => rfl), filter_postToSelf]
  · rw [hshape]
    simp [List.countP_eq_length_filter, List.filter_cons, Event.isForward,
      hother Event.isForward (fun _ _ _ => rfl), filter_postToSelf]

/-- C7 (instance): the direct node of the scenarios reaches its three peers. -/
theorem Multicast_direct_nil_sends_to_all_witness :
    directBackend.isProxiedValidator = false ∧
    Multicast directBackend none payloadX 17 false =
      ([Event.findPeers none, Event.send (some peerA) 17 payloadX,
        Event.send (some peerB) 17 payloadX, Event.send (some peerC) 17 payloadX], none) :=
  ⟨rfl, (Multicast_direct_nil_sends_to_all directBackend payloadX 17 false rfl).1⟩

/-! ## Resolution of destination addresses -/

theorem mem_resolveTargets (sb : Backend) :
    ∀ (addrs : List Address) (targets : Finset NodeID) (id : NodeID),
      id ∈ resolveTargets sb addrs targets ↔
        id ∈ targets ∨
          ∃ a ∈ addrs, ∃ node : Node, sb.getNodeFromAddress a = (some node, none) ∧ node.id = id := by
  intro addrs
  induction addrs with
  | nil => intro targets id; simp [resolveTargets]
  | cons a rest ih =>
    intro targets id
    unfold resolveTargets
    split
    · rename_i valNode hv
      rw [ih, Finset.mem_insert]
      constructor
      · rintro ((h | h) | ⟨b, hb, node, hn, hid⟩)
        · exact Or.inr ⟨a, List.mem_cons_self _ _, valNode, hv, h.symm⟩
        · exact Or.inl h
        · exact Or.inr ⟨b, List.mem_cons_of_mem _ hb, node, hn, hid⟩
      · rintro (h | ⟨b, hb, node, hn, hid⟩)
        · exact Or.inl (Or.inr h)
        · rcases List.mem_cons.mp hb with rfl | hb
          · rw [hv] at hn
            have hnode : valNode = node := by
              injection hn with h1 _
              injection h1
            subst hnode
            exact Or.inl (Or.inl hid.symm)
          · exact Or.inr ⟨b, hb, node, hn, hid⟩
    · rename_i hv
      rw [ih]
      constructor
      · rintro (h | ⟨b, hb, node, hn, hid⟩)
        · exact Or.inl h
        · exact Or.inr ⟨b, List.mem_cons_of_mem _ hb, node, hn, hid⟩
      · rintro (h | ⟨b, hb, node, hn, hid⟩)
        · exact Or.inl h
        · rcases List.mem_cons.mp hb with rfl | hb
          · exact absurd hn (hv node)
          · exact Or.inr ⟨b, hb, node, hn, hid⟩

/-- C9: for a non-nil destination list, `getPeersFromDestAddresses` looks every address up
in order, then calls `FindPeers` once, with a non-nil target set, and returns what
`FindPeers` answers; the target set holds exactly the IDs of the nodes of those addresses
whose lookup gives a non-nil node and a nil error; so an empty list, or a list none of
whose addresses resolves, gives the empty non-nil set, not the nil "all peers" request. -/
theorem getPeersFromDestAddresses_targets (sb : Backend) (addrs : List Address) :
    getPeersFromDestAddresses sb (some addrs) =
      (addrs.map Event.lookup ++ [Event.findPeers (some (resolveTargets sb addrs ∅))],
        sb.findPeers (some (resolveTargets sb addrs ∅))) ∧
    destTargets sb (some addrs) ≠ none ∧
    (∀ id : NodeID, id ∈ resolveTargets sb addrs ∅ ↔
      ∃ a ∈ addrs, ∃ node : Node, sb.getNodeFromAddress a = (some node, none) ∧ node.id = id) ∧
    ((∀ a ∈ addrs, (sb.getNodeFromAddress a).1 = none ∨ (sb.getNodeFromAddress a).2 ≠ none) →
      destTargets sb (some addrs) = some ∅) := by
  have hmem : ∀ id : NodeID, id ∈ resolveTargets sb addrs ∅ ↔
      ∃ a ∈ addrs, ∃ node : Node, sb.getNodeFromAddress a = (some node, none) ∧ node.id = id := by
    intro id
    rw [mem_resolveTargets]
    simp
  refine ⟨rfl, by simp [destTargets], hmem, ?_⟩
  intro hnone
  have hempty : resolveTargets sb addrs ∅ = ∅ := by
    apply Finset.eq_empty_of_forall_not_mem
    intro id hid
    obtain ⟨a, ha, node, hn, _⟩ := (hmem id).mp hid
    have hbad := hnone a ha
    rw [hn] at hbad
    simp at hbad
  simp [destTargets, hempty]

/-- C9 (instance): address 105 is unknown to the enode table of the direct node, so the
list [105] resolves to the empty target set; a repeated address counts once. -/
theorem getPeersFromDestAddresses_targets_witness :
    (∀ a ∈ [105], (directBackend.getNodeFromAddress a).1 = none ∨
      (directBackend.getNodeFromAddress a).2 ≠ none) ∧
    destTargets directBackend (some [105]) = some ∅ ∧
    destTargets directBackend (some [101, 105, 101]) = some {1} :=
  ⟨by decide,
    (getPeersFromDestAddresses_targets directBackend [105]).2.2.2 (by decide),
    by decide⟩

/-! ## The sentry API -/

/-- C6: `AddSentry` fails (returns false with a non-nil error) and issues no
`addSentryPeer` request whenever the node is not configured as proxied, whatever the two
strings, or either string is rejected by the enode parser; it returns (true, nil) and
issues exactly one `addSentryPeer` request, with the two parsed nodes, when the node is
proxied and both strings parse; and it returns (true, nil) in that case only. -/
theorem AddSentry_result (parseV4 : String → Option Node × Option Err) (api : API)
    (calls : List SentryCall) (url externalUrl : String) :
    ((api.istanbul.proxied = false ∨ (parseV4 url).2 ≠ none ∨
        (parseV4 externalUrl).2 ≠ none) →
      (AddSentry parseV4 api calls url externalUrl).1.1 = false ∧
      (AddSentry parseV4 api calls url externalUrl).1.2 ≠ none ∧
      (AddSentry parseV4 api calls url externalUrl).2 = calls) ∧
    ((api.istanbul.proxied = true ∧ (parseV4 url).2 = none ∧
        (parseV4 externalUrl).2 = none) →
      AddSentry parseV4 api calls url externalUrl =
        ((true, none),
          calls ++ [SentryCall.addSentryPeer (parseV4 url).1 (parseV4 externalUrl).1])) ∧
    ((AddSentry parseV4 api calls url externalUrl).1 = (true, none) ↔
      (api.istanbul.proxied = true ∧ (parseV4 url).2 = none ∧
        (parseV4 externalUrl).2 = none)) := by
  unfold AddSentry
  generalize parseV4 url = r1
  generalize parseV4 externalUrl = r2
  rcases r1 with ⟨n1, _ | e1⟩ <;> rcases r2 with ⟨n2, _ | e2⟩ <;>
    cases api.istanbul.proxied <;> simp

/-- C6 (instance): a proxied node adding a sentry from two well-formed strings, and the
same request on a node that is not proxied. -/
theorem AddSentry_result_witness :
    (failingProxyBackend.proxied = true ∧ (toyParseV4 "enode://a").2 = none ∧
      (toyParseV4 "enode://bc").2 = none) ∧
    AddSentry toyParseV4 { chain := settledChain, istanbul := failingProxyBackend } []
        "enode://a" "enode://bc" =
      ((true, none),
        [SentryCall.addSentryPeer (some { id := 9, addr := 9 }) (some { id := 10, addr := 10 })]) ∧
    (AddSentry toyParseV4 { chain := settledChain, istanbul := directBackend } []
        "enode://a" "enode://bc").2 = [] :=
  ⟨by decide,
    ((AddSentry_result toyParseV4 { chain := settledChain, istanbul := failingProxyBackend } []
      "enode://a" "enode://bc").2.1 (by decide)).trans (by decide),
    ((AddSentry_result toyParseV4 { chain := settledChain, istanbul := directBackend } []
      "enode://a" "enode://bc").1 (Or.inl rfl)).2.2⟩

/-- C10: for every string the enode parser accepts, `RemoveSentry` returns (true, nil) and
issues exactly one `RemoveSentryPeer` request, for the parsed node, whatever the proxied
configuration and whatever requests were issued before, so also when repeated; for every
string the parser rejects it returns false with a non-nil error and issues no request. -/
theorem RemoveSentry_result (parseV4 : String → Option Node × Option Err) (api : API)
    (calls : List SentryCall) (url : String) :
    ((parseV4 url).2 = none →
      RemoveSentry parseV4 api calls url =
        ((true, none), calls ++ [SentryCall.removeSentryPeer (parseV4 url).1]) ∧
      RemoveSentry parseV4 api (RemoveSentry parseV4 api calls url).2 url =
        ((true, none),
          calls ++ [SentryCall.removeSentryPeer (parseV4 url).1,
            SentryCall.removeSentryPeer (parseV4 url).1])) ∧
    ((parseV4 url).2 ≠ none →
      (RemoveSentry parseV4 api calls url).1.1 = false ∧
      (RemoveSentry parseV4 api calls url).1.2 ≠ none ∧
      (RemoveSentry parseV4 api calls url).2 = calls) := by
  unfold RemoveSentry
  generalize parseV4 url = r
  rcases r with ⟨n, _ | e⟩ <;> simp

/-- C10 (instance): removing a sentry that was never added, on a node that is not proxied,
and a malformed string. -/
theorem RemoveSentry_result_witness :
    (toyParseV4 "enode://a").2 = none ∧
    RemoveSentry toyParseV4 { chain := settledChain, istanbul := directBackend } [] "enode://a" =
      ((true, none), [SentryCall.removeSentryPeer (some { id := 9, addr := 9 })]) ∧
    (toyParseV4 "a").2 ≠ none ∧
    (RemoveSentry toyParseV4 { chain := settledChain, istanbul := directBackend } [] "a").2 = [] :=
  ⟨by decide,
    ((RemoveSentry_result toyParseV4 { chain := settledChain, istanbul := directBackend } []
      "enode://a").1 (by decide)).1.trans (by decide),
    by decide,
    ((RemoveSentry_result toyParseV4 { chain := settledChain, istanbul := directBackend } []
      "a").2 (by decide)).2.2⟩

/-! ## Snapshot queries -/

theorem blockNumberToUint64_natCast (n : Nat) (h : n < 9223372036854775808) :
    blockNumberToUint64 (n : Int) = n := by
  unfold blockNumberToUint64
  omega

/-- C8 (counterexample): on a chain reader whose current header is block 5 but whose
by-number lookup has no header for 5, `GetSnapshot(nil)` returns the snapshot of block 5
while `GetSnapshot(5)` returns `errUnknownBlock`. -/
theorem GetSnapshot_nil_differs_on_stale_chain :
    GetSnapshot echoSnapshot (-1) { chain := staleChain, istanbul := directBackend } none =
      ((some 5, none), [(5, 55)]) ∧
    GetSnapshot echoSnapshot (-1) { chain := staleChain, istanbul := directBackend } (some 5) =
      ((none, some errUnknownBlock), []) ∧
    GetSnapshot echoSnapshot (-1) { chain := staleChain, istanbul := directBackend } none ≠
      GetSnapshot echoSnapshot (-1) { chain := staleChain, istanbul := directBackend } (some 5) := by
  decide

/-- C8 (amended): when `CurrentHeader()` is a header `h` whose number fits a block number
and `GetHeaderByNumber(h.number)` returns `h` as well, `GetSnapshot(nil)` returns the same
result, from the same snapshot-engine call, as `GetSnapshot(h.number)`; and for every
chain reader, when the header lookup that `GetSnapshot` performs for its argument yields no
header (`GetHeaderByNumber(uint64(N))` for a number N other than the latest marker,
`CurrentHeader()` for nil or the latest marker), it returns (nil, `errUnknownBlock`)
without calling the snapshot engine. -/
theorem GetSnapshot_latest_and_unknown {Snap : Type}
    (snapshot : Nat → Hash → Option Snap × Option Err) (latest : Int) (api : API) (h : Header)
    (hcur : api.chain.currentHeader = some h) (hfits : h.number < 9223372036854775808)
    (hsame : api.chain.getHeaderByNumber h.number = some h) :
    GetSnapshot snapshot latest api none =
      GetSnapshot snapshot latest api (some (h.number : Int)) ∧
    (∀ N : Int, N ≠ latest → api.chain.getHeaderByNumber (blockNumberToUint64 N) = none →
      GetSnapshot snapshot latest api (some N) = ((none, some errUnknownBlock), [])) ∧
    (∀ (other : API) (number : Option Int), resolveHeader latest other.chain number = none →
      GetSnapshot snapshot latest other number = ((none, some errUnknownBlock), [])) := by
  refine ⟨?_, ?_, ?_⟩
  · unfold GetSnapshot resolveHeader
    by_cases hl : (h.number : Int) = latest
    · simp [hl]
    · simp [hl, hcur, blockNumberToUint64_natCast h.number hfits, hsame]
  · intro N hN hnone
    simp [GetSnapshot, resolveHeader, hN, hnone]
  · intro other number hnone
    simp [GetSnapshot, hnone]

/-- C8 (instance): a chain whose by-number lookup knows its current header. -/
theorem GetSnapshot_latest_and_unknown_witness :
    (settledChain.currentHeader = some { number := 5, hash := 55 } ∧
      (5 : Nat) < 9223372036854775808 ∧
      settledChain.getHeaderByNumber 5 = some { number := 5, hash := 55 }) ∧
    GetSnapshot echoSnapshot (-1) { chain := settledChain, istanbul := directBackend } none =
      GetSnapshot echoSnapshot (-1) { chain := settledChain, istanbul := directBackend }
        (some 5) :=
  ⟨by decide,
    (GetSnapshot_latest_and_unknown echoSnapshot (-1)
      { chain := settledChain, istanbul := directBackend } { number := 5, hash := 55 }
      rfl (by decide) rfl).1⟩

end Istanbul
